import Mathlib

/-!
Shallow embedding of the Blackjack simulation engine of the API-blackjack
repository (`game.py`), together with proofs about the behaviour its
specification describes.

Modelling conventions:
* Python floats are modelled as exact rationals (`ℚ`).
* Card ranks are the rank strings used by the source (`"A"`, `"2"`, …, `"K"`).
* The pseudo-random reordering performed by `random.Random.shuffle` inside
  `Shoe.reshuffle` is injected as a stream of reordering functions
  `shuffles : Nat → List String → List String`, one per reshuffle; theorems
  that need a reshuffled shoe to be a full load assume each reordering is a
  permutation of its input.
* Python exceptions (`list.pop` on an empty list, i.e. drawing from an empty
  shoe) are modelled by `Option`, with `none` meaning the simulation aborts.
* The two nested `while` loops of the player-decision phase of
  `simulate_rounds` are flattened into one tail-recursive function
  `decisionLoop` driven by a fuel parameter.  Every continuing iteration
  either finishes a hand or removes at least one card from the shoe, so the
  fuel `2 * shoe size + 2` supplied at the call site cannot run out before
  the loop exits of its own accord.
-/

namespace Blackjack

/-- The thirteen rank symbols, as in `game.py` (`RANKS`). -/
def RANKS : List String :=
  ["A", "2", "3", "4", "5", "6", "7", "8", "9", "10", "J", "Q", "K"]

/-- Blackjack value of a rank, as in `game.py` (`VALUES`); the source uses a
dict whose lookup raises `KeyError` for a string outside `RANKS`, here we
return a junk value `0` for such strings (no simulated card is ever outside
`RANKS`). -/
def VALUES (r : String) : Nat :=
  if r = "A" then 11
  else if r = "2" then 2
  else if r = "3" then 3
  else if r = "4" then 4
  else if r = "5" then 5
  else if r = "6" then 6
  else if r = "7" then 7
  else if r = "8" then 8
  else if r = "9" then 9
  else if r = "10" then 10
  else if r = "J" then 10
  else if r = "Q" then 10
  else if r = "K" then 10
  else 0

/-- Hi-Lo count value for a rank (`hi_lo_value` in `game.py`). -/
def hi_lo_value (r : String) : Int :=
  if r = "2" ∨ r = "3" ∨ r = "4" ∨ r = "5" ∨ r = "6" then 1
  else if r = "7" ∨ r = "8" ∨ r = "9" then 0
  else -1

/-- First phase of `HandState.value`: the `for` loop summing ranks with every
Ace counted as 11, returning the running total together with the number of
Aces seen. -/
def countTotalAces (cards : List String) : Nat × Nat :=
  cards.foldl
    (fun p r => if r = "A" then (p.1 + 11, p.2 + 1) else (p.1 + VALUES r, p.2))
    (0, 0)

/-- Second phase of `HandState.value`: the `while total > 21 and aces > 0`
loop, which subtracts 10 once per remaining Ace while the total busts.  The
loop runs at most `aces` times, so it is structural recursion on `aces`. -/
def valueReduce : Nat → Nat → Nat
  | total, 0 => total
  | total, aces + 1 => if 21 < total then valueReduce (total - 10) aces else total

/-- Blackjack value of a list of cards: `HandState.value` in `game.py`. -/
def handValue (cards : List String) : Nat :=
  valueReduce (countTotalAces cards).1 (countTotalAces cards).2

/-- A player's or dealer's hand, as the dataclass `HandState` in `game.py`. -/
structure HandState where
  cards : List String
  bet : ℚ
  actions : List String
  doubled : Bool := false
deriving DecidableEq

/-- The `value` property of `HandState`. -/
def HandState.value (h : HandState) : Nat := handValue h.cards

/-- The `is_blackjack` method of `HandState`. -/
def HandState.is_blackjack (h : HandState) : Bool :=
  h.cards.length == 2 && h.value == 21

/-- The `can_split` method of `HandState`: exactly two cards of equal rank. -/
def HandState.can_split (h : HandState) : Bool :=
  h.cards.length == 2 && h.cards.getD 0 "" == h.cards.getD 1 ""

/-- The `can_double` method of `HandState`: exactly two cards. -/
def HandState.can_double (h : HandState) : Bool :=
  h.cards.length == 2

/-- Outcome comparison `_settle` of `game.py`: `+1` win, `0` push, `-1` loss. -/
def _settle (player_value dealer_value : ℤ) : ℤ :=
  if player_value > 21 then -1
  else if dealer_value > 21 then 1
  else if player_value > dealer_value then 1
  else if player_value < dealer_value then -1
  else 0

/-- Mapping of a `_settle` outcome to the result string, as in the settlement
loop of `simulate_rounds` (`if outcome == 0 … elif outcome > 0 … else …`). -/
def result_str (outcome : ℤ) : String :=
  if outcome = 0 then "push" else if outcome > 0 then "win" else "lose"

/-- Truncation towards zero, the behaviour of Python's `int()` on a float. -/
def pyInt (q : ℚ) : ℤ := if 0 ≤ q then ⌊q⌋ else -⌊-q⌋

/-- The bet ramp `_bet_from_true_count` of `game.py`. -/
def _bet_from_true_count (tc base : ℚ) (max_mult : ℤ) : ℚ :=
  if tc ≤ 0 then base
  else
    let mult := 1 + pyInt tc
    let mult := if mult > max_mult then max_mult else mult
    base * (mult : ℚ)

/-- The full (unshuffled) load of a shoe: `num_decks` decks, four copies of
each rank per deck, in the nested-loop order of `Shoe.reshuffle`. -/
def shoeLoad (num_decks : Nat) : List String :=
  (List.range num_decks).flatMap fun _ => RANKS.flatMap fun r => List.replicate 4 r

/-- The shoe of `game.py`.  `shoe` is the list `_shoe` (drawn from the end, as
`list.pop()` does), `cards_total` is `_cards_total`.  The field `shuffles`
injects the reorderings that `self._rng.shuffle` would produce, and `k` counts
how many reshuffles have happened (the position in the random stream). -/
structure Shoe where
  num_decks : Nat
  shuffles : Nat → List String → List String
  k : Nat
  shoe : List String
  cards_total : Nat

/-- The `reshuffle` method: rebuild the full load, reorder it with the next
reordering of the random stream, and reset the remaining-count baseline. -/
def Shoe.reshuffle (s : Shoe) : Shoe :=
  let cs := s.shuffles s.k (shoeLoad s.num_decks)
  { s with shoe := cs, cards_total := cs.length, k := s.k + 1 }

/-- The `Shoe` constructor: start empty and reshuffle once. -/
def Shoe.new (num_decks : Nat) (shuffles : Nat → List String → List String) : Shoe :=
  Shoe.reshuffle ⟨num_decks, shuffles, 0, [], 0⟩

/-- The `cards_remaining` method. -/
def Shoe.cards_remaining (s : Shoe) : Nat := s.shoe.length

/-- The `decks_remaining` method: remaining cards over 52, floored at 0.0001. -/
def Shoe.decks_remaining (s : Shoe) : ℚ :=
  max (1 / 10000) ((s.shoe.length : ℚ) / 52)

/-- The `pop` method: remove and return the last card; popping an empty shoe
raises `IndexError` in Python, modelled as `none`.  (The auto-reshuffle
mentioned in the source's docstring is commented out in the source and does
not run.) -/
def Shoe.pop (s : Shoe) : Option (String × Shoe) :=
  match s.shoe.getLast? with
  | none => none
  | some c => some (c, { s with shoe := s.shoe.dropLast })

/-- One record per completed player hand, the dataclass `RoundResult`. -/
structure RoundResult where
  round_id : Nat
  hand_number : Nat
  player_cards : List String
  dealer_cards : List String
  actions : List String
  bet_amount : ℚ
  final_result : String
  blackjack : Bool
  busted : Bool
  strategy_used : String
  bet_mode : String
  true_count_prev_round : ℚ
  running_count_end : ℚ
  true_count_end : ℚ
  cards_remaining : Nat
  decks_remaining : ℚ
deriving DecidableEq

/-- Python's `round(x, 3)` used for the reported count fields; modelled as
round-half-up at three decimals (the difference from the float banker's
rounding of CPython is immaterial to every claim, none of which depends on
the rounded report fields). -/
def round3 (q : ℚ) : ℚ := (⌊q * 1000 + 1 / 2⌋ : ℚ) / 1000

/-- The dealer loop `_dealer_play`: hit while below 17, then stand.  Each
iteration removes a card, so the fuel `shoe size + 1` supplied at the call
site cannot be exhausted before the loop ends (running out of cards returns
`none`, as the Python `IndexError` would abort). -/
def _dealer_play : Nat → HandState → Shoe → Option (HandState × Shoe)
  | 0, dealer, shoe =>
    if dealer.value < 17 then none
    else some ({ dealer with actions := dealer.actions ++ ["stand"] }, shoe)
  | fuel + 1, dealer, shoe =>
    if dealer.value < 17 then
      match shoe.pop with
      | none => none
      | some (c, s1) =>
        _dealer_play fuel
          { dealer with cards := dealer.cards ++ [c], actions := dealer.actions ++ ["hit"] }
          s1
    else some ({ dealer with actions := dealer.actions ++ ["stand"] }, shoe)

/-- The player-decision phase of `simulate_rounds` (the `while hand_index <
len(hands)` loop together with its inner `while True` loop), flattened: the
head of `todo` is the hand at `hand_index`, `acc` collects finished hands in
order, and `seen` is `seen_this_round`.  A hit that does not bust re-enters
the loop with the grown hand at the front; a split replaces the front hand by
the two daughter hands (left first, exactly as the source's two `insert`
calls and `hand_index` adjustment do).  Every continuing iteration finishes a
hand or removes at least one card from the shoe, so the fuel
`2 * shoe size + 2` supplied at the call site cannot run out early. -/
def decisionLoop (strategy_fn : HandState → String → String) (dealer_up : String) :
    Nat → List HandState → Shoe → List String → List HandState →
    Option (List HandState × Shoe × List String)
  | _, [], shoe, seen, acc => some (acc, shoe, seen)
  | 0, _ :: _, _, _, _ => none
  | fuel + 1, current :: rest, shoe, seen, acc =>
    let action := strategy_fn current dealer_up
    if action = "hit" ∨ (action = "double" ∧ current.can_double = false) then
      match shoe.pop with
      | none => none
      | some (c, s1) =>
        let cur1 : HandState :=
          { current with cards := current.cards ++ [c], actions := current.actions ++ ["hit"] }
        if 21 < cur1.value then
          decisionLoop strategy_fn dealer_up fuel rest s1 (seen ++ [c]) (acc ++ [cur1])
        else
          decisionLoop strategy_fn dealer_up fuel (cur1 :: rest) s1 (seen ++ [c]) acc
    else if action = "stand" then
      decisionLoop strategy_fn dealer_up fuel rest shoe seen
        (acc ++ [{ current with actions := current.actions ++ ["stand"] }])
    else if action = "double" ∧ current.can_double = true then
      match shoe.pop with
      | none => none
      | some (c, s1) =>
        let cur1 : HandState :=
          { current with
              bet := current.bet * 2
              doubled := true
              cards := current.cards ++ [c]
              actions := (current.actions ++ ["double"]) ++ ["stand"] }
        decisionLoop strategy_fn dealer_up fuel rest s1 (seen ++ [c]) (acc ++ [cur1])
    else if action = "split" ∧ current.can_split = true then
      match shoe.pop with
      | none => none
      | some (c1, s1) =>
        match s1.pop with
        | none => none
        | some (c2, s2) =>
          let left : HandState :=
            { cards := [current.cards.getD 0 "", c1], bet := current.bet,
              actions := ["split"], doubled := false }
          let right : HandState :=
            { cards := [current.cards.getD 1 "", c2], bet := current.bet,
              actions := ["split"], doubled := false }
          decisionLoop strategy_fn dealer_up fuel (left :: right :: rest) s2
            (seen ++ [c1, c2]) acc
    else
      decisionLoop strategy_fn dealer_up fuel rest shoe seen
        (acc ++ [{ current with actions := current.actions ++ ["stand"] }])

/-- The cross-round state threaded by `simulate_rounds`: the shared dealing
shoe and the counting variables `running_count`, `total_cards_initial` and
`true_count_prev`. -/
structure SimState where
  shoe : Shoe
  running_count : ℚ
  total_cards_initial : Nat
  true_count_prev : ℚ

/-- The reshuffle-when-depleted check at the top of each round of
`simulate_rounds`: reshuffle and zero the counting state when at most 25% of
the last full load remains. -/
def reshuffleCheck (st : SimState) : SimState :=
  if (st.shoe.cards_remaining : ℚ) ≤ 0.25 * (st.total_cards_initial : ℚ) then
    let s := st.shoe.reshuffle
    { shoe := s, running_count := 0, total_cards_initial := s.cards_remaining,
      true_count_prev := 0 }
  else st

/-- The body of one round of `simulate_rounds` after the reshuffle check:
bet sizing, the initial deal, the two natural-blackjack short circuits, the
player-decision loop, dealer play, settlement and the counting update.
Returns the round's records and the updated cross-round state. -/
def playRoundAfterCheck (strategy_name : String)
    (strategy_fn : HandState → String → String) (bet_mode : String)
    (base_bet : ℚ) (round_id : Nat) (st1 : SimState) :
    Option (List RoundResult × SimState) :=
  let bet_amount :=
    if bet_mode = "fixed" then base_bet
    else _bet_from_true_count st1.true_count_prev base_bet 5
  match st1.shoe.pop with
  | none => none
  | some (c1, s1) =>
  match s1.pop with
  | none => none
  | some (c2, s2) =>
  match s2.pop with
  | none => none
  | some (c3, s3) =>
  match s3.pop with
  | none => none
  | some (c4, s4) =>
  let player : HandState := ⟨[c1, c2], bet_amount, [], false⟩
  let dealer : HandState := ⟨[c3, c4], 0, [], false⟩
  let seen0 := player.cards ++ dealer.cards
  if dealer.is_blackjack then
    let final := if player.is_blackjack then "push" else "lose"
    let delta : ℤ := (seen0.map hi_lo_value).sum
    let running1 := st1.running_count + (delta : ℚ)
    let tc_end := running1 / s4.decks_remaining
    some ([{ round_id := round_id, hand_number := 1, player_cards := player.cards,
             dealer_cards := dealer.cards, actions := [], bet_amount := player.bet,
             final_result := final, blackjack := player.is_blackjack, busted := false,
             strategy_used := strategy_name, bet_mode := bet_mode,
             true_count_prev_round := round3 st1.true_count_prev,
             running_count_end := round3 running1, true_count_end := round3 tc_end,
             cards_remaining := s4.cards_remaining,
             decks_remaining := round3 s4.decks_remaining }],
          ⟨s4, running1, st1.total_cards_initial, tc_end⟩)
  else if player.is_blackjack then
    let delta : ℤ := (seen0.map hi_lo_value).sum
    let running1 := st1.running_count + (delta : ℚ)
    let tc_end := running1 / s4.decks_remaining
    some ([{ round_id := round_id, hand_number := 1, player_cards := player.cards,
             dealer_cards := dealer.cards, actions := ["stand"], bet_amount := player.bet,
             final_result := "win", blackjack := true, busted := false,
             strategy_used := strategy_name, bet_mode := bet_mode,
             true_count_prev_round := round3 st1.true_count_prev,
             running_count_end := round3 running1, true_count_end := round3 tc_end,
             cards_remaining := s4.cards_remaining,
             decks_remaining := round3 s4.decks_remaining }],
          ⟨s4, running1, st1.total_cards_initial, tc_end⟩)
  else
    match decisionLoop strategy_fn (dealer.cards.getD 0 "")
        (2 * s4.cards_remaining + 2) [player] s4 seen0 [] with
    | none => none
    | some (hands, s5, seen1) =>
      match _dealer_play (s5.cards_remaining + 1) dealer s5 with
      | none => none
      | some (dealer1, s6) =>
        let seen2 :=
          if 2 < dealer1.cards.length then seen1 ++ dealer1.cards.drop 2 else seen1
        let delta : ℤ := (seen2.map hi_lo_value).sum
        let running1 := st1.running_count + (delta : ℚ)
        let tc := running1 / s6.decks_remaining
        some (hands.enum.map fun p =>
                { round_id := round_id, hand_number := p.1 + 1,
                  player_cards := p.2.cards, dealer_cards := dealer1.cards,
                  actions := p.2.actions, bet_amount := p.2.bet,
                  final_result := result_str (_settle (p.2.value : ℤ) (dealer1.value : ℤ)),
                  blackjack := p.2.is_blackjack, busted := decide (21 < p.2.value),
                  strategy_used := strategy_name, bet_mode := bet_mode,
                  true_count_prev_round := round3 st1.true_count_prev,
                  running_count_end := round3 running1, true_count_end := round3 tc,
                  cards_remaining := s6.cards_remaining,
                  decks_remaining := round3 s6.decks_remaining },
              ⟨s6, running1, st1.total_cards_initial, tc⟩)

/-- One full round of `simulate_rounds`: the reshuffle check followed by the
round body.  In the source the per-record counting fields are backfilled on
the freshly created records after the counting update; here each record is
created directly with its final field values, which is the same net effect
because the records of a round are exactly the last `len(hands)` entries of
`results` at that point. -/
def playRound (strategy_name : String) (strategy_fn : HandState → String → String)
    (bet_mode : String) (base_bet : ℚ) (round_id : Nat) (st : SimState) :
    Option (List RoundResult × SimState) :=
  playRoundAfterCheck strategy_name strategy_fn bet_mode base_bet round_id
    (reshuffleCheck st)

/-- The `for round_id in range(1, rounds + 1)` loop of `simulate_rounds`. -/
def simLoop (strategy_name : String) (strategy_fn : HandState → String → String)
    (bet_mode : String) (base_bet : ℚ) :
    Nat → Nat → SimState → List RoundResult → Option (List RoundResult)
  | _, 0, _, acc => some acc
  | round_id, n + 1, st, acc =>
    match playRound strategy_name strategy_fn bet_mode base_bet round_id st with
    | none => none
    | some (rs, st1) =>
      simLoop strategy_name strategy_fn bet_mode base_bet (round_id + 1) n st1 (acc ++ rs)

/-- The driver `simulate_rounds` of `game.py`.  (The local `rng` built from
`seed` at the top of the source function is never used afterwards; the shoe
owns the only random stream that matters, injected here as `shuffles`.) -/
def simulate_rounds (rounds num_decks : Nat) (base_bet : ℚ) (strategy_name : String)
    (strategy_fn : HandState → String → String) (bet_mode : String)
    (shuffles : Nat → List String → List String) : Option (List RoundResult) :=
  let shoe := Shoe.new num_decks shuffles
  simLoop strategy_name strategy_fn bet_mode base_bet 1 rounds
    ⟨shoe, 0, shoe.cards_remaining, 0⟩ []

/-- Reachability of one shoe state from another by the shoe's own operations
(successful draws and reshuffles), used to state the shoe invariants. -/
inductive ShoeReach : Shoe → Shoe → Prop where
  | refl (s : Shoe) : ShoeReach s s
  | pop {s t t' : Shoe} {c : String} :
      ShoeReach s t → t.pop = some (c, t') → ShoeReach s t'
  | reshuffle {s t : Shoe} : ShoeReach s t → ShoeReach s t.reshuffle

/-- Modelled from the spec: the `src` tree of the repository contains only the
legacy single-path simulator (`simulate_rounds`), not the Branch Explorer of
§4.4 of the spec; this definition follows the spec's algorithm.  At each
decision node the legal actions are stand, hit, and double when the
double-eligibility predicate holds (split is excluded from the explorer by
the spec).  Stand ends the turn keeping the node's shoe snapshot; hit draws
one card and ends the branch exactly when the new total busts, otherwise it
opens a new decision node; double doubles the bet, draws exactly one card and
ends the turn.  Each branch works on its own copies of the hand and the shoe
snapshot (cloning is intrinsic here: values are immutable), and the snapshot
is consumed from the head.  The action-order shuffle of the spec only
permutes enumeration order, which no claim depends on, so a fixed
stand/hit/double order is used.  A draw from an exhausted snapshot is a
fatal caller bug per the spec; such a branch produces no leaf. -/
def explore : HandState → List String → List (HandState × List String)
  | hand, [] => [({ hand with actions := hand.actions ++ ["stand"] }, [])]
  | hand, c :: rest =>
    ({ hand with actions := hand.actions ++ ["stand"] }, c :: rest)
      :: ((if 21 < handValue (hand.cards ++ [c]) then
             [({ hand with
                   cards := hand.cards ++ [c]
                   actions := hand.actions ++ ["hit"] }, rest)]
           else
             explore
               { hand with
                   cards := hand.cards ++ [c]
                   actions := hand.actions ++ ["hit"] } rest)
          ++ (if hand.can_double then
                [({ hand with
                      cards := hand.cards ++ [c]
                      bet := hand.bet * 2
                      doubled := true
                      actions := hand.actions ++ ["double"] }, rest)]
              else []))

/-- Modelled from the spec: dealer play on a leaf's private shoe snapshot
(hit while below 17, then stand); a draw from an exhausted snapshot would be
fatal per the spec and is modelled as an immediate stand, which no claim
depends on. -/
def dealerRun : HandState → List String → HandState × List String
  | dealer, [] => ({ dealer with actions := dealer.actions ++ ["stand"] }, [])
  | dealer, c :: rest =>
    if dealer.value < 17 then
      dealerRun
        { dealer with
            cards := dealer.cards ++ [c]
            actions := dealer.actions ++ ["hit"] } rest
    else ({ dealer with actions := dealer.actions ++ ["stand"] }, c :: rest)

/-- Modelled from the spec: the Branch Explorer emits one `RoundResult` per
leaf, carrying the leaf's full card and action history, settlement against
the dealer play run on the leaf's own shoe snapshot, and a branch-local
Hi-Lo running/true count over only the ranks revealed within that branch. -/
def exploreRound (round_id : Nat) (strategy_name bet_mode : String)
    (player dealer : HandState) (shoe : List String) : List RoundResult :=
  (explore player shoe).map fun leaf =>
    let pd := dealerRun dealer leaf.2
    let running : ℤ := ((leaf.1.cards ++ pd.1.cards).map hi_lo_value).sum
    let decks : ℚ := max (1 / 10000) ((pd.2.length : ℚ) / 52)
    { round_id := round_id, hand_number := 1, player_cards := leaf.1.cards,
      dealer_cards := pd.1.cards, actions := leaf.1.actions,
      bet_amount := leaf.1.bet,
      final_result := result_str (_settle (leaf.1.value : ℤ) (pd.1.value : ℤ)),
      blackjack := leaf.1.is_blackjack, busted := decide (21 < leaf.1.value),
      strategy_used := strategy_name, bet_mode := bet_mode,
      true_count_prev_round := 0, running_count_end := (running : ℚ),
      true_count_end := (running : ℚ) / decks,
      cards_remaining := pd.2.length, decks_remaining := decks }

/-- The terminal action sequences of the spec's Branch Explorer, defined
directly from the spec's words as a predicate on the player's cards, the
shoe snapshot, and the action sequence: stand always ends the turn; double
is legal exactly on a two-card hand and consumes one draw; a hit consumes
one draw and is terminal exactly when the resulting total busts, otherwise
the sequence continues from the grown hand and the rest of the snapshot. -/
inductive TerminalSeq : List String → List String → List String → Prop where
  | stand (cards shoe : List String) : TerminalSeq cards shoe ["stand"]
  | doub (cards : List String) (c : String) (rest : List String) :
      cards.length = 2 → TerminalSeq cards (c :: rest) ["double"]
  | hitBust (cards : List String) (c : String) (rest : List String) :
      21 < handValue (cards ++ [c]) → TerminalSeq cards (c :: rest) ["hit"]
  | hitGo (cards : List String) (c : String) (rest s : List String) :
      handValue (cards ++ [c]) ≤ 21 → TerminalSeq (cards ++ [c]) rest s →
      TerminalSeq cards (c :: rest) ("hit" :: s)

/-! ### Concrete scenario data used by witnesses and counterexamples -/

/-- The identity reordering stream (a valid shuffle: every reordering is a
permutation of its input). -/
def idShuffles : Nat → List String → List String := fun _ l => l

/-- A deterministic decision policy: hit below 10, else stand. -/
def stratHitTen : HandState → String → String :=
  fun h _ => if h.value < 10 then "hit" else "stand"

/-- A decision policy that always asks to double. -/
def stratDouble : HandState → String → String := fun _ _ => "double"

/-- A decision policy that always asks to split. -/
def stratSplit : HandState → String → String := fun _ _ => "split"

/-- Concrete mid-simulation state: one deck configured, six cards left in
order 7, K, 8, 10, 3, 2 (popped from the right end), baseline 6, zero
counts. -/
def stC5 : SimState := ⟨⟨1, idShuffles, 1, ["7", "K", "8", "10", "3", "2"], 6⟩, 0, 6, 0⟩

/-- The records produced by `playRound` on `stC5` with `stratHitTen`: the
player is dealt 2,3, hits a K to 15 and stands; the dealer's 10,8 stands on
18; the running count over all five revealed cards is 0. -/
def resultsC5 : List RoundResult :=
  [⟨1, 1, ["2", "3", "K"], ["10", "8"], ["hit", "stand"], 10, "lose", false, false,
    "simplest", "fixed", 0, 0, 0, 1, 19 / 1000⟩]

/-- The cross-round state after the `stC5` round. -/
def stC5' : SimState := ⟨⟨1, idShuffles, 1, ["7"], 6⟩, 0, 6, 0⟩

/-- Concrete state whose next deal gives the player 5,9 and the dealer the
natural blackjack A,K. -/
def stBJdealer : SimState := ⟨⟨1, idShuffles, 1, ["K", "A", "9", "5"], 4⟩, 0, 0, 0⟩

/-- Concrete state whose next deal gives the player the natural blackjack
A,K and the dealer 9,5. -/
def stBJplayer : SimState := ⟨⟨1, idShuffles, 1, ["5", "9", "K", "A"], 4⟩, 0, 0, 0⟩

/-! ### Lemmas about the hand-value loop -/

/-- The reduction loop performs some number of 10-subtractions bounded by the
number of Aces. -/
theorem valueReduce_eq_sub (aces : Nat) :
    ∀ total, ∃ j, j ≤ aces ∧ valueReduce total aces = total - 10 * j := by
  induction aces with
  | zero => intro total; exact ⟨0, Nat.le_refl 0, by simp [valueReduce]⟩
  | succ a ih =>
    intro total
    by_cases h : 21 < total
    · obtain ⟨j, hj, hv⟩ := ih (total - 10)
      refine ⟨j + 1, Nat.succ_le_succ hj, ?_⟩
      rw [valueReduce, if_pos h, hv]
      omega
    · exact ⟨0, Nat.zero_le _, by rw [valueReduce, if_neg h]; omega⟩

/-- If counting every Ace as 1 would stay at or below 21, the reduction loop
ends at or below 21. -/
theorem valueReduce_le (aces : Nat) :
    ∀ total, total - 10 * aces ≤ 21 → valueReduce total aces ≤ 21 := by
  induction aces with
  | zero => intro total h; simpa [valueReduce] using h
  | succ a ih =>
    intro total h
    by_cases hgt : 21 < total
    · rw [valueReduce, if_pos hgt]
      exact ih (total - 10) (by omega)
    · rw [valueReduce, if_neg hgt]; omega

/-- C2: `HandState.value` counts Aces as 11 and then subtracts 10 at most once
per Ace; whenever some 1/11 assignment to the Aces stays at or below 21, the
computed value is at or below 21. -/
theorem C2_hand_value (cards : List String) :
    (∃ j, j ≤ (countTotalAces cards).2 ∧
       handValue cards = (countTotalAces cards).1 - 10 * j) ∧
    ((∃ k, k ≤ (countTotalAces cards).2 ∧
        (countTotalAces cards).1 - 10 * k ≤ 21) → handValue cards ≤ 21) := by
  constructor
  · exact valueReduce_eq_sub _ _
  · rintro ⟨k, hk, hle⟩
    exact valueReduce_le _ _ (by omega)

/-- Witness for C2 on the concrete hand A, A, 9 (total 31 with both Aces as
11; counting one Ace as 1 gives 21 ≤ 21, and indeed the value is 21). -/
theorem C2_hand_value_witness :
    ((∃ j, j ≤ (countTotalAces ["A", "A", "9"]).2 ∧
        handValue ["A", "A", "9"] = (countTotalAces ["A", "A", "9"]).1 - 10 * j) ∧
      handValue ["A", "A", "9"] ≤ 21) ∧
    handValue ["A", "A", "9"] = 21 :=
  ⟨⟨(C2_hand_value ["A", "A", "9"]).1,
    (C2_hand_value ["A", "A", "9"]).2 ⟨1, by decide, by decide⟩⟩, by decide⟩

/-- C3: settlement returns lose whenever the player busts, else win whenever
the dealer busts, else compares totals; including the four concrete cases
named by the spec. -/
theorem C3_settle (pv dv : ℤ) :
    (21 < pv → result_str (_settle pv dv) = "lose") ∧
    (pv ≤ 21 → 21 < dv → result_str (_settle pv dv) = "win") ∧
    (pv ≤ 21 → dv ≤ 21 → dv < pv → result_str (_settle pv dv) = "win") ∧
    (pv ≤ 21 → dv ≤ 21 → pv < dv → result_str (_settle pv dv) = "lose") ∧
    (pv ≤ 21 → dv ≤ 21 → pv = dv → result_str (_settle pv dv) = "push") ∧
    result_str (_settle 22 18) = "lose" ∧
    result_str (_settle 18 22) = "win" ∧
    result_str (_settle 20 20) = "push" ∧
    result_str (_settle 21 20) = "win" := by
  refine ⟨?_, ?_, ?_, ?_, ?_, by decide, by decide, by decide, by decide⟩
  · intro h
    norm_num [_settle, result_str, h]
  · intro h1 h2
    norm_num [_settle, result_str, h2, not_lt.mpr h1]
  · intro h1 h2 h3
    norm_num [_settle, result_str, not_lt.mpr h1, not_lt.mpr h2, h3]
  · intro h1 h2 h3
    norm_num [_settle, result_str, not_lt.mpr h1, not_lt.mpr h2, h3,
      not_lt.mpr (le_of_lt h3)]
  · intro h1 h2 h3
    subst h3
    norm_num [_settle, result_str, not_lt.mpr h1, not_lt.mpr h2]

/-- Witness for C3 at player 22 against dealer 18: the player busts and
loses. -/
theorem C3_settle_witness : result_str (_settle 22 18) = "lose" :=
  (C3_settle 22 18).1 (by decide)

/-- On positive rationals Python's `int()` truncation agrees with the floor
function. -/
theorem pyInt_pos (tc : ℚ) (h : 0 < tc) : pyInt tc = ⌊tc⌋ := by
  simp [pyInt, le_of_lt h]

/-- C7: the bet ramp returns the base bet for a non-positive true count and
otherwise multiplies the base by `min max_mult (1 + ⌊tc⌋)` with the default
cap `max_mult = 5`; including the four concrete ramp values of the spec. -/
theorem C7_bet_ramp (tc base : ℚ) (hbase : 0 < base) :
    (tc ≤ 0 → _bet_from_true_count tc base 5 = base) ∧
    (0 < tc → _bet_from_true_count tc base 5 = base * ((min 5 (1 + ⌊tc⌋) : ℤ) : ℚ)) ∧
    _bet_from_true_count 0 10 5 = 10 ∧
    _bet_from_true_count 1 10 5 = 20 ∧
    _bet_from_true_count 4 10 5 = 50 ∧
    _bet_from_true_count 10 10 5 = 50 := by
  refine ⟨fun hle => by simp [_bet_from_true_count, hle], fun hpos => ?_, ?_, ?_, ?_, ?_⟩
  · simp only [_bet_from_true_count, if_neg (not_le.mpr hpos), pyInt_pos tc hpos,
      gt_iff_lt]
    rcases le_or_lt (1 + ⌊tc⌋) 5 with h | h
    · rw [if_neg (not_lt.mpr h), min_eq_right h]
    · rw [if_pos h, min_eq_left (le_of_lt h)]
  · norm_num [_bet_from_true_count]
  · norm_num [_bet_from_true_count, pyInt]
  · norm_num [_bet_from_true_count, pyInt]
  · norm_num [_bet_from_true_count, pyInt]

/-- Witness for C7 at true count 1 and base bet 10: the bet doubles. -/
theorem C7_bet_ramp_witness :
    _bet_from_true_count 1 10 5 = 10 * ((min 5 (1 + ⌊(1 : ℚ)⌋) : ℤ) : ℚ) ∧
    _bet_from_true_count 1 10 5 = 20 :=
  ⟨(C7_bet_ramp 1 10 (by norm_num)).2.1 (by norm_num),
    (C7_bet_ramp 1 10 (by norm_num)).2.2.2.1⟩

/-! ### The decision loop: dispatch and split behaviour -/

/-- C6 (amended): in the legacy single-path decision loop, an action outside
the four known strings, or a split request on a non-splittable hand, is
treated as an implicit stand; a double request on a non-double-eligible hand
is treated as a hit (a card is drawn and the action is logged as a hit,
busting ends the hand); no case aborts the simulation by itself. -/
theorem C6_amended_dispatch (strategy_fn : HandState → String → String)
    (dealer_up : String) (fuel : Nat) (current : HandState) (rest : List HandState)
    (shoe : Shoe) (seen : List String) (acc : List HandState) :
    (strategy_fn current dealer_up ∉ (["hit", "stand", "double", "split"] : List String) →
      decisionLoop strategy_fn dealer_up (fuel + 1) (current :: rest) shoe seen acc
        = decisionLoop strategy_fn dealer_up fuel rest shoe seen
            (acc ++ [{ current with actions := current.actions ++ ["stand"] }])) ∧
    (strategy_fn current dealer_up = "split" → current.can_split = false →
      decisionLoop strategy_fn dealer_up (fuel + 1) (current :: rest) shoe seen acc
        = decisionLoop strategy_fn dealer_up fuel rest shoe seen
            (acc ++ [{ current with actions := current.actions ++ ["stand"] }])) ∧
    (strategy_fn current dealer_up = "double" → current.can_double = false →
      decisionLoop strategy_fn dealer_up (fuel + 1) (current :: rest) shoe seen acc
        = match shoe.pop with
          | none => none
          | some (c, s1) =>
            if 21 < handValue (current.cards ++ [c]) then
              decisionLoop strategy_fn dealer_up fuel rest s1 (seen ++ [c])
                (acc ++ [{ current with
                             cards := current.cards ++ [c]
                             actions := current.actions ++ ["hit"] }])
            else
              decisionLoop strategy_fn dealer_up fuel
                ({ current with
                     cards := current.cards ++ [c]
                     actions := current.actions ++ ["hit"] } :: rest) s1
                (seen ++ [c]) acc) := by
  refine ⟨fun hmem => ?_, fun ha hs => ?_, fun ha hd => ?_⟩
  · simp only [List.mem_cons, List.mem_singleton, not_or] at hmem
    obtain ⟨e1, e2, e3, e4⟩ := hmem
    simp [decisionLoop, e1, e2, e3, e4]
  · simp [decisionLoop, ha, hs]
  · simp only [decisionLoop, ha, hd]
    cases hp : shoe.pop with
    | none => simp
    | some p =>
      obtain ⟨c, s1⟩ := p
      simp [HandState.value, handValue]

/-- C10: a split request on a splittable pair replaces the current hand by
two daughter hands — left seeded with the first card of the pair, right with
the second — each inheriting the full parent bet, each drawing exactly one
card from the shared dealing shoe (left first), each with action log
["split"], and the loop re-enters with the left daughter at the front, so
the daughters themselves run through the full decision logic again (nothing
limits further splits). -/
theorem C10_split_step (strategy_fn : HandState → String → String)
    (dealer_up : String) (fuel : Nat) (current : HandState) (rest : List HandState)
    (shoe s1 s2 : Shoe) (seen : List String) (acc : List HandState) (c1 c2 : String)
    (ha : strategy_fn current dealer_up = "split") (hs : current.can_split = true)
    (h1 : shoe.pop = some (c1, s1)) (h2 : s1.pop = some (c2, s2)) :
    decisionLoop strategy_fn dealer_up (fuel + 1) (current :: rest) shoe seen acc
      = decisionLoop strategy_fn dealer_up fuel
          ({ cards := [current.cards.getD 0 "", c1], bet := current.bet,
             actions := ["split"], doubled := false }
            :: { cards := [current.cards.getD 1 "", c2], bet := current.bet,
                 actions := ["split"], doubled := false }
            :: rest) s2 (seen ++ [c1, c2]) acc := by
  simp [decisionLoop, ha, hs, h1, h2]

/-- Counterexample for C6 as stated: on the three-card hand 10,5,5 (not
double-eligible) a "double" request is not treated as an implicit stand —
the loop draws a card (here a 5, busting the hand to 25) and logs the action
"hit". -/
theorem C6_counterexample :
    (decisionLoop stratDouble "9" 3 [⟨["10", "5", "5"], 10, [], false⟩]
        ⟨1, idShuffles, 0, ["5"], 52⟩ [] []).map (fun r => (r.1, r.2.2))
      = some ([⟨["10", "5", "5", "5"], 10, ["hit"], false⟩], ["5"]) ∧
    (["hit"] : List String) ≠ ["stand"] := by
  constructor
  · rfl
  · decide

/-- Witness for C10: a pair of 8s with bet 10 splits into two one-8 hands
that draw the next two shoe cards (3 to the left hand first, then 2 to the
right hand), both with bet 10 and action log ["split"], re-entering the
loop with the left hand first. -/
theorem C10_split_step_witness :
    decisionLoop stratSplit "9" 6 [⟨["8", "8"], 10, [], false⟩]
        ⟨1, idShuffles, 0, ["2", "3"], 52⟩ [] []
      = decisionLoop stratSplit "9" 5
          ({ cards := [(["8", "8"] : List String).getD 0 "", "3"], bet := 10,
             actions := ["split"], doubled := false }
            :: { cards := [(["8", "8"] : List String).getD 1 "", "2"], bet := 10,
                 actions := ["split"], doubled := false }
            :: []) ⟨1, idShuffles, 0, [], 52⟩ ([] ++ ["3", "2"]) [] :=
  C10_split_step stratSplit "9" 5 ⟨["8", "8"], 10, [], false⟩ []
    ⟨1, idShuffles, 0, ["2", "3"], 52⟩ ⟨1, idShuffles, 0, ["2"], 52⟩
    ⟨1, idShuffles, 0, [], 52⟩ [] [] "3" "2" rfl (by decide) rfl rfl

/-! ### The shoe: load size, draws, reshuffles -/

/-- The full load holds `num_decks * 52` cards. -/
theorem shoeLoad_length (n : Nat) : (shoeLoad n).length = n * 52 := by
  induction n with
  | zero => rfl
  | succ m ih =>
    rw [shoeLoad, List.range_succ, List.flatMap_append] at *
    simp only [List.length_append, ih]
    rw [Nat.succ_mul]
    have h52 : (([m] : List ℕ).flatMap fun _ =>
        RANKS.flatMap fun r => List.replicate 4 r).length = 52 := rfl
    omega

/-- A successful `pop` removes exactly the last card and changes no other
field of the shoe. -/
theorem Shoe.pop_spec {s s' : Shoe} {c : String} (h : s.pop = some (c, s')) :
    s.shoe = s'.shoe ++ [c] ∧ s'.num_decks = s.num_decks ∧
    s'.shuffles = s.shuffles ∧ s'.k = s.k ∧ s'.cards_total = s.cards_total := by
  rw [Shoe.pop] at h
  cases hl : s.shoe.getLast? with
  | none => rw [hl] at h; exact absurd h (by simp)
  | some a =>
    rw [hl] at h
    simp only [Option.some.injEq, Prod.mk.injEq] at h
    obtain ⟨rfl, rfl⟩ := h
    obtain ⟨l', hl'⟩ := List.getLast?_eq_some_iff.mp hl
    refine ⟨?_, rfl, rfl, rfl, rfl⟩
    rw [hl', List.dropLast_concat]

/-- Every shoe state reachable from a starting shoe keeps the deck count and
the injected random stream. -/
theorem ShoeReach.preserved {s0 s : Shoe} (h : ShoeReach s0 s) :
    s.num_decks = s0.num_decks ∧ s.shuffles = s0.shuffles := by
  induction h with
  | refl => exact ⟨rfl, rfl⟩
  | pop _ hp ih =>
    obtain ⟨_, h1, h2, _, _⟩ := Shoe.pop_spec hp
    exact ⟨h1.trans ih.1, h2.trans ih.2⟩
  | reshuffle _ ih => exact ⟨ih.1, ih.2⟩

/-- C8: before each round's deal, when at most 25% of the last full load
remains the shoe is rebuilt to the full `num_decks` load in a new order and
both counting variables are zeroed (the baseline becoming the full load
size); otherwise the check changes nothing at all. -/
theorem C8_reshuffle_check (st : SimState)
    (hperm : ∀ i l, (st.shoe.shuffles i l).Perm l) :
    ((st.shoe.cards_remaining : ℚ) ≤ 0.25 * (st.total_cards_initial : ℚ) →
       (reshuffleCheck st).shoe.shoe.Perm (shoeLoad st.shoe.num_decks) ∧
       (reshuffleCheck st).shoe.cards_remaining = st.shoe.num_decks * 52 ∧
       (reshuffleCheck st).running_count = 0 ∧
       (reshuffleCheck st).true_count_prev = 0 ∧
       (reshuffleCheck st).total_cards_initial = st.shoe.num_decks * 52) ∧
    (¬ ((st.shoe.cards_remaining : ℚ) ≤ 0.25 * (st.total_cards_initial : ℚ)) →
       reshuffleCheck st = st) := by
  constructor
  · intro hcond
    have hp : (reshuffleCheck st).shoe.shoe.Perm (shoeLoad st.shoe.num_decks) := by
      rw [reshuffleCheck, if_pos hcond]
      exact hperm _ _
    have hlen : (reshuffleCheck st).shoe.cards_remaining = st.shoe.num_decks * 52 := by
      rw [Shoe.cards_remaining, hp.length_eq, shoeLoad_length]
    refine ⟨hp, hlen, ?_, ?_, ?_⟩
    · rw [reshuffleCheck, if_pos hcond]
    · rw [reshuffleCheck, if_pos hcond]
    · rw [← hlen]
      rw [reshuffleCheck, if_pos hcond]
  · intro hcond
    rw [reshuffleCheck, if_neg hcond]

/-- C9: after a reshuffle the remaining count is exactly `num_decks * 52`;
every successful draw lowers the remaining count by exactly one; every shoe
state reachable from a freshly built shoe holds at most `num_decks * 52`
cards; and drawing from an empty shoe fails instead of yielding a card. -/
theorem C9_shoe_invariants :
    (∀ s : Shoe, (∀ i l, (s.shuffles i l).Perm l) →
       s.reshuffle.cards_remaining = s.num_decks * 52) ∧
    (∀ (s s' : Shoe) (c : String), s.pop = some (c, s') →
       s'.cards_remaining + 1 = s.cards_remaining) ∧
    (∀ (nd : Nat) (sh : Nat → List String → List String) (s : Shoe),
       (∀ i l, (sh i l).Perm l) → ShoeReach (Shoe.new nd sh) s →
       s.cards_remaining ≤ nd * 52) ∧
    (∀ s : Shoe, s.shoe = [] → s.pop = none) := by
  have hresh : ∀ s : Shoe, (∀ i l, (s.shuffles i l).Perm l) →
      s.reshuffle.cards_remaining = s.num_decks * 52 := by
    intro s hperm
    rw [Shoe.cards_remaining, Shoe.reshuffle]
    rw [(hperm _ _).length_eq, shoeLoad_length]
  have hpop : ∀ (s s' : Shoe) (c : String), s.pop = some (c, s') →
      s'.cards_remaining + 1 = s.cards_remaining := by
    intro s s' c h
    obtain ⟨hs, _, _, _, _⟩ := Shoe.pop_spec h
    rw [Shoe.cards_remaining, Shoe.cards_remaining, hs]
    simp
  refine ⟨hresh, hpop, ?_, ?_⟩
  · intro nd sh s hperm hreach
    induction hreach with
    | refl => exact le_of_eq (hresh ⟨nd, sh, 0, [], 0⟩ hperm)
    | pop hr hp ih =>
      have := hpop _ _ _ hp
      omega
    | reshuffle hr ih =>
      rename_i t
      have hpres := ShoeReach.preserved hr
      have ht : t.reshuffle.cards_remaining = t.num_decks * 52 :=
        hresh t (by rw [hpres.2]; exact hperm)
      rw [ht, hpres.1]
      exact le_of_eq rfl
  · intro s hs
    rw [Shoe.pop, hs]
    rfl

/-- Witness for C8 on a state with an empty one-deck shoe and baseline 0:
the check reshuffles to a full 52-card load and zeroes the counts. -/
theorem C8_reshuffle_check_witness :
    ((reshuffleCheck ⟨⟨1, idShuffles, 0, [], 0⟩, 5, 0, 3⟩).shoe.shoe.Perm (shoeLoad 1) ∧
      (reshuffleCheck ⟨⟨1, idShuffles, 0, [], 0⟩, 5, 0, 3⟩).shoe.cards_remaining = 1 * 52 ∧
      (reshuffleCheck ⟨⟨1, idShuffles, 0, [], 0⟩, 5, 0, 3⟩).running_count = 0 ∧
      (reshuffleCheck ⟨⟨1, idShuffles, 0, [], 0⟩, 5, 0, 3⟩).true_count_prev = 0 ∧
      (reshuffleCheck ⟨⟨1, idShuffles, 0, [], 0⟩, 5, 0, 3⟩).total_cards_initial = 1 * 52) :=
  (C8_reshuffle_check ⟨⟨1, idShuffles, 0, [], 0⟩, 5, 0, 3⟩
      (fun _ l => List.Perm.refl l)).1 (by norm_num [Shoe.cards_remaining])

/-! ### The Branch Explorer: exhaustiveness and uniqueness -/

/-- Every terminal action sequence is nonempty. -/
theorem TerminalSeq.ne_nil {cards shoe t : List String}
    (h : TerminalSeq cards shoe t) : t ≠ [] := by
  cases h <;> simp

/-- The action logs of the explorer's leaves: pairwise distinct, and a
sequence appears among them exactly when it extends the input hand's log by
a terminal action sequence of the snapshot. -/
theorem explore_spec (shoe : List String) :
    ∀ h : HandState,
      ((explore h shoe).map (fun l => l.1.actions)).Nodup ∧
      (∀ seq, seq ∈ (explore h shoe).map (fun l => l.1.actions) ↔
        ∃ t, seq = h.actions ++ t ∧ TerminalSeq h.cards shoe t) := by
  induction shoe with
  | nil =>
    intro h
    refine ⟨by simp [explore], fun seq => ?_⟩
    simp only [explore, List.map_cons, List.map_nil, List.mem_singleton]
    constructor
    · rintro rfl
      exact ⟨["stand"], rfl, TerminalSeq.stand _ _⟩
    · rintro ⟨t, rfl, ht⟩
      cases ht
      rfl
  | cons c rest ih =>
    intro h
    have hitShape : ∀ seq,
        seq ∈ ((if 21 < handValue (h.cards ++ [c]) then
            [({ h with cards := h.cards ++ [c], actions := h.actions ++ ["hit"] }, rest)]
          else
            explore { h with cards := h.cards ++ [c], actions := h.actions ++ ["hit"] } rest).map
            (fun l => l.1.actions)) →
        ∃ t, seq = h.actions ++ ("hit" :: t) := by
      intro seq hm
      by_cases hbust : 21 < handValue (h.cards ++ [c])
      · rw [if_pos hbust] at hm
        simp only [List.map_cons, List.map_nil, List.mem_singleton] at hm
        exact ⟨[], by simpa using hm⟩
      · rw [if_neg hbust] at hm
        obtain ⟨t, rfl, -⟩ := ((ih _).2 seq).1 hm
        exact ⟨t, by simp⟩
    constructor
    · -- pairwise distinct logs
      simp only [explore, List.map_cons, List.map_append]
      rw [List.nodup_cons]
      constructor
      · intro hmem
        rw [List.mem_append] at hmem
        rcases hmem with hm | hm
        · obtain ⟨t, ht⟩ := hitShape _ hm
          have := List.append_cancel_left ht
          simp at this
        · by_cases hdbl : h.can_double = true
          · rw [if_pos hdbl] at hm
            simp only [List.map_cons, List.map_nil, List.mem_singleton] at hm
            have := List.append_cancel_left hm
            simp at this
          · rw [if_neg hdbl] at hm
            simp at hm
      · refine List.Nodup.append ?_ ?_ ?_
        · by_cases hbust : 21 < handValue (h.cards ++ [c])
          · rw [if_pos hbust]; simp
          · rw [if_neg hbust]; exact (ih _).1
        · by_cases hdbl : h.can_double = true
          · rw [if_pos hdbl]; simp
          · rw [if_neg hdbl]; simp
        · intro seq hm1 hm2
          obtain ⟨t, rfl⟩ := hitShape _ hm1
          by_cases hdbl : h.can_double = true
          · rw [if_pos hdbl] at hm2
            simp only [List.map_cons, List.map_nil, List.mem_singleton] at hm2
            have := List.append_cancel_left hm2
            simp at this
          · rw [if_neg hdbl] at hm2
            simp at hm2
    · -- membership characterisation
      intro seq
      simp only [explore, List.map_cons, List.map_append, List.mem_cons,
        List.mem_append]
      constructor
      · rintro (rfl | hm | hm)
        · exact ⟨["stand"], rfl, TerminalSeq.stand _ _⟩
        · by_cases hbust : 21 < handValue (h.cards ++ [c])
          · rw [if_pos hbust] at hm
            simp only [List.map_cons, List.map_nil, List.mem_singleton] at hm
            subst hm
            exact ⟨["hit"], by simp, TerminalSeq.hitBust _ _ _ hbust⟩
          · rw [if_neg hbust] at hm
            obtain ⟨t, rfl, ht⟩ := ((ih _).2 seq).1 hm
            exact ⟨"hit" :: t, by simp,
              TerminalSeq.hitGo _ _ _ _ (le_of_not_lt hbust) ht⟩
        · by_cases hdbl : h.can_double = true
          · rw [if_pos hdbl] at hm
            simp only [List.map_cons, List.map_nil, List.mem_singleton] at hm
            subst hm
            refine ⟨["double"], rfl, TerminalSeq.doub _ _ _ ?_⟩
            simpa [HandState.can_double] using hdbl
          · rw [if_neg hdbl] at hm
            simp at hm
      · rintro ⟨t, rfl, ht⟩
        cases ht with
        | stand => left; rfl
        | doub _ _ _ hlen =>
          right; right
          have hdbl : h.can_double = true := by
            simp [HandState.can_double, hlen]
          rw [if_pos hdbl]
          simp
        | hitBust _ _ _ hb =>
          right; left
          rw [if_pos hb]
          simp
        | hitGo _ _ _ s hnb hts =>
          right; left
          rw [if_neg (not_lt.mpr hnb)]
          refine ((ih _).2 _).2 ⟨s, ?_, hts⟩
          simp

/-- C1: given an initial player hand (with empty action log), a dealer hand
and a shoe snapshot, the Branch Explorer emits exactly one RoundResult per
distinct terminal action sequence reachable through the legal-action set
stand / hit / double-when-eligible: the emitted action logs are pairwise
distinct, and a sequence is emitted exactly when it is a terminal sequence
of the snapshot.  The explorer is a pure function of its inputs, so the
input hand and shoe snapshot are never mutated and every branch acts only
on its own copies. -/
theorem C1_explorer_exhaustive (rid : Nat) (sn bm : String)
    (player dealer : HandState) (shoe : List String)
    (hact : player.actions = []) :
    ((exploreRound rid sn bm player dealer shoe).map RoundResult.actions).Nodup ∧
    ∀ seq,
      seq ∈ (exploreRound rid sn bm player dealer shoe).map RoundResult.actions ↔
      TerminalSeq player.cards shoe seq := by
  have hmap : (exploreRound rid sn bm player dealer shoe).map RoundResult.actions
      = (explore player shoe).map (fun l => l.1.actions) := by
    rw [exploreRound, List.map_map]
    rfl
  rw [hmap]
  obtain ⟨hnd, hiff⟩ := explore_spec shoe player
  refine ⟨hnd, fun seq => (hiff seq).trans ?_⟩
  rw [hact]
  constructor
  · rintro ⟨t, rfl, ht⟩
    simpa using ht
  · intro ht
    exact ⟨seq, by simp, ht⟩

/-- Witness for C1 on a pair of 8s against a dealer 10,6 with the snapshot
5, 9, K: the emitted logs are exactly the terminal sequences (stand; hit
then stand; hit twice ending in a bust; double). -/
theorem C1_explorer_exhaustive_witness :
    ((exploreRound 1 "basic" "fixed" ⟨["8", "8"], 10, [], false⟩
        ⟨["10", "6"], 0, [], false⟩ ["5", "9", "K"]).map RoundResult.actions).Nodup ∧
    ∀ seq,
      seq ∈ (exploreRound 1 "basic" "fixed" ⟨["8", "8"], 10, [], false⟩
        ⟨["10", "6"], 0, [], false⟩ ["5", "9", "K"]).map RoundResult.actions ↔
      TerminalSeq ["8", "8"] ["5", "9", "K"] seq :=
  C1_explorer_exhaustive 1 "basic" "fixed" ⟨["8", "8"], 10, [], false⟩
    ⟨["10", "6"], 0, [], false⟩ ["5", "9", "K"] rfl

/-! ### What a round draws and reveals -/

/-- Composing one successful draw with a later suffix decomposition of the
shoe: the drawn card joins the removed suffix, and the seen list grows in
draw order. -/
theorem drawn_compose {shoe s1 shoe' : Shoe} {c : String} {drawn : List String}
    {seen seen' : List String}
    (hp : shoe.pop = some (c, s1))
    (hshoe : s1.shoe = shoe'.shoe ++ drawn)
    (hseen : seen' = (seen ++ [c]) ++ drawn.reverse) :
    shoe.shoe = shoe'.shoe ++ (drawn ++ [c]) ∧
    seen' = seen ++ (drawn ++ [c]).reverse := by
  obtain ⟨hps, _, _, _, _⟩ := Shoe.pop_spec hp
  constructor
  · rw [hps, hshoe, List.append_assoc]
  · rw [hseen, List.reverse_append]
    simp [List.append_assoc]

/-- The decision loop only removes cards from the shoe (never reshuffling),
and appends exactly the removed cards, in draw order, to the seen list. -/
theorem decisionLoop_drawn (strategy_fn : HandState → String → String)
    (dealer_up : String) :
    ∀ (fuel : Nat) (todo : List HandState) (shoe : Shoe) (seen : List String)
      (acc hands : List HandState) (shoe' : Shoe) (seen' : List String),
      decisionLoop strategy_fn dealer_up fuel todo shoe seen acc
        = some (hands, shoe', seen') →
      shoe'.num_decks = shoe.num_decks ∧ shoe'.shuffles = shoe.shuffles ∧
      shoe'.k = shoe.k ∧ shoe'.cards_total = shoe.cards_total ∧
      ∃ drawn, shoe.shoe = shoe'.shoe ++ drawn ∧ seen' = seen ++ drawn.reverse := by
  intro fuel
  induction fuel with
  | zero =>
    intro todo shoe seen acc hands shoe' seen' h
    cases todo with
    | nil =>
      simp only [decisionLoop, Option.some.injEq, Prod.mk.injEq] at h
      obtain ⟨-, rfl, rfl⟩ := h
      exact ⟨rfl, rfl, rfl, rfl, [], by simp, by simp⟩
    | cons current rest =>
      simp only [decisionLoop] at h
      exact absurd h (by simp)
  | succ n ih =>
    intro todo shoe seen acc hands shoe' seen' h
    cases todo with
    | nil =>
      simp only [decisionLoop, Option.some.injEq, Prod.mk.injEq] at h
      obtain ⟨-, rfl, rfl⟩ := h
      exact ⟨rfl, rfl, rfl, rfl, [], by simp, by simp⟩
    | cons current rest =>
      simp only [decisionLoop] at h
      split at h
      · -- hit, or double without eligibility
        split at h
        · exact absurd h (by simp)
        · rename_i c s1 hp
          obtain ⟨hps, hpn, hpsh, hpk, hpct⟩ := Shoe.pop_spec hp
          split at h
          all_goals
            obtain ⟨hnd, hsh, hk, hct, drawn, hshoe, hseen⟩ := ih _ _ _ _ _ _ _ h
          all_goals
            obtain ⟨hs2, hn2⟩ := drawn_compose hp hshoe hseen
          all_goals
            exact ⟨hnd.trans hpn, hsh.trans hpsh, hk.trans hpk, hct.trans hpct,
              drawn ++ [c], hs2, hn2⟩
      · split at h
        · -- stand
          exact ih _ _ _ _ _ _ _ h
        · split at h
          · -- eligible double
            split at h
            · exact absurd h (by simp)
            · rename_i c s1 hp
              obtain ⟨hps, hpn, hpsh, hpk, hpct⟩ := Shoe.pop_spec hp
              obtain ⟨hnd, hsh, hk, hct, drawn, hshoe, hseen⟩ := ih _ _ _ _ _ _ _ h
              obtain ⟨hs2, hn2⟩ := drawn_compose hp hshoe hseen
              exact ⟨hnd.trans hpn, hsh.trans hpsh, hk.trans hpk, hct.trans hpct,
                drawn ++ [c], hs2, hn2⟩
          · split at h
            · -- eligible split: two draws
              split at h
              · exact absurd h (by simp)
              · rename_i c1 s1 hp1
                split at h
                · exact absurd h (by simp)
                · rename_i c2 s2 hp2
                  obtain ⟨h1s, h1n, h1sh, h1k, h1ct⟩ := Shoe.pop_spec hp1
                  obtain ⟨hnd, hsh, hk, hct, drawn, hshoe, hseen⟩ :=
                    ih _ _ _ _ _ _ _ h
                  have hseen' : seen' = ((seen ++ [c1]) ++ [c2]) ++ drawn.reverse := by
                    rw [hseen]; simp [List.append_assoc]
                  obtain ⟨hs2, hn2⟩ := drawn_compose hp2 hshoe hseen'
                  obtain ⟨hs3, hn3⟩ := drawn_compose hp1 hs2 hn2
                  obtain ⟨-, h2n, h2sh, h2k, h2ct⟩ := Shoe.pop_spec hp2
                  exact ⟨hnd.trans (h2n.trans h1n), hsh.trans (h2sh.trans h1sh),
                    hk.trans (h2k.trans h1k), hct.trans (h2ct.trans h1ct),
                    (drawn ++ [c2]) ++ [c1], hs3, hn3⟩
            · -- unknown action or ineligible split: implicit stand
              exact ih _ _ _ _ _ _ _ h

/-- Dealer play only removes cards from the shoe and appends exactly the
removed cards, in draw order, to the dealer's hand. -/
theorem dealer_play_drawn :
    ∀ (fuel : Nat) (dealer : HandState) (shoe : Shoe) (dealer1 : HandState)
      (shoe' : Shoe),
      _dealer_play fuel dealer shoe = some (dealer1, shoe') →
      shoe'.num_decks = shoe.num_decks ∧ shoe'.shuffles = shoe.shuffles ∧
      shoe'.k = shoe.k ∧ shoe'.cards_total = shoe.cards_total ∧
      ∃ drawn, shoe.shoe = shoe'.shoe ++ drawn ∧
        dealer1.cards = dealer.cards ++ drawn.reverse := by
  intro fuel
  induction fuel with
  | zero =>
    intro dealer shoe dealer1 shoe' h
    rw [_dealer_play] at h
    split at h
    · exact absurd h (by simp)
    · simp only [Option.some.injEq, Prod.mk.injEq] at h
      obtain ⟨rfl, rfl⟩ := h
      exact ⟨rfl, rfl, rfl, rfl, [], by simp, by simp⟩
  | succ n ih =>
    intro dealer shoe dealer1 shoe' h
    rw [_dealer_play] at h
    split at h
    · split at h
      · exact absurd h (by simp)
      · rename_i c s1 hp
        obtain ⟨hps, hpn, hpsh, hpk, hpct⟩ := Shoe.pop_spec hp
        obtain ⟨hnd, hsh, hk, hct, drawn, hshoe, hcards⟩ := ih _ _ _ _ h
        refine ⟨hnd.trans hpn, hsh.trans hpsh, hk.trans hpk, hct.trans hpct,
          drawn ++ [c], ?_, ?_⟩
        · rw [hps, hshoe, List.append_assoc]
        · rw [hcards]
          simp [List.reverse_append, List.append_assoc]
    · simp only [Option.some.injEq, Prod.mk.injEq] at h
      obtain ⟨rfl, rfl⟩ := h
      exact ⟨rfl, rfl, rfl, rfl, [], by simp, by simp⟩

/-- C5 (amended): a round advances the cross-round running count by the
Hi-Lo weights of every card drawn from the dealing shoe during the round —
the four initially-dealt cards and every later player and dealer draw — and
then recomputes the true count from the dealing shoe's remaining-deck
estimate and carries it forward as the next round's "true count before".
The round itself never reshuffles (deck count, random stream and position
are untouched after the pre-round check). -/
theorem C5_amended_counting (sn : String) (strat : HandState → String → String)
    (bm : String) (bb : ℚ) (rid : Nat) (st : SimState)
    (results : List RoundResult) (st' : SimState)
    (h : playRound sn strat bm bb rid st = some (results, st')) :
    st'.shoe.num_decks = (reshuffleCheck st).shoe.num_decks ∧
    st'.shoe.shuffles = (reshuffleCheck st).shoe.shuffles ∧
    st'.shoe.k = (reshuffleCheck st).shoe.k ∧
    st'.total_cards_initial = (reshuffleCheck st).total_cards_initial ∧
    ∃ revealed, (reshuffleCheck st).shoe.shoe = st'.shoe.shoe ++ revealed ∧
      4 ≤ revealed.length ∧
      st'.running_count
        = (reshuffleCheck st).running_count + ((revealed.map hi_lo_value).sum : ℚ) ∧
      st'.true_count_prev = st'.running_count / st'.shoe.decks_remaining := by
  simp only [playRound, playRoundAfterCheck] at h
  split at h
  · exact absurd h (by simp)
  rename_i c1 s1 hp1
  split at h
  · exact absurd h (by simp)
  rename_i c2 s2 hp2
  split at h
  · exact absurd h (by simp)
  rename_i c3 s3 hp3
  split at h
  · exact absurd h (by simp)
  rename_i c4 s4 hp4
  obtain ⟨g1, g1n, g1sh, g1k, g1ct⟩ := Shoe.pop_spec hp1
  obtain ⟨g2, g2n, g2sh, g2k, g2ct⟩ := Shoe.pop_spec hp2
  obtain ⟨g3, g3n, g3sh, g3k, g3ct⟩ := Shoe.pop_spec hp3
  obtain ⟨g4, g4n, g4sh, g4k, g4ct⟩ := Shoe.pop_spec hp4
  have hfour : (reshuffleCheck st).shoe.shoe = s4.shoe ++ [c4, c3, c2, c1] := by
    rw [g1, g2, g3, g4]
    simp
  generalize (if bm = "fixed" then bb
    else _bet_from_true_count (reshuffleCheck st).true_count_prev bb 5) = bet at h
  split at h
  · -- dealer natural blackjack
    simp only [Option.some.injEq, Prod.mk.injEq] at h
    obtain ⟨-, rfl⟩ := h
    refine ⟨g4n.trans (g3n.trans (g2n.trans g1n)),
      g4sh.trans (g3sh.trans (g2sh.trans g1sh)),
      g4k.trans (g3k.trans (g2k.trans g1k)), rfl,
      [c4, c3, c2, c1], hfour, by simp, ?_, rfl⟩
    have hsum : ((([c1, c2] ++ [c3, c4]).map hi_lo_value)).sum
        = (([c4, c3, c2, c1].map hi_lo_value)).sum := by
      simp only [List.cons_append, List.nil_append, List.map_cons, List.map_nil,
        List.sum_cons, List.sum_nil]
      omega
    rw [← hsum]
  · split at h
    · -- player natural blackjack
      simp only [Option.some.injEq, Prod.mk.injEq] at h
      obtain ⟨-, rfl⟩ := h
      refine ⟨g4n.trans (g3n.trans (g2n.trans g1n)),
        g4sh.trans (g3sh.trans (g2sh.trans g1sh)),
        g4k.trans (g3k.trans (g2k.trans g1k)), rfl,
        [c4, c3, c2, c1], hfour, by simp, ?_, rfl⟩
      have hsum : ((([c1, c2] ++ [c3, c4]).map hi_lo_value)).sum
          = (([c4, c3, c2, c1].map hi_lo_value)).sum := by
        simp only [List.cons_append, List.nil_append, List.map_cons, List.map_nil,
          List.sum_cons, List.sum_nil]
        omega
      rw [← hsum]
    · -- decision loop and dealer play
      split at h
      · exact absurd h (by simp)
      rename_i hands s5 seen1 hloop
      split at h
      · exact absurd h (by simp)
      rename_i dealer1 s6 hdeal
      simp only [Option.some.injEq, Prod.mk.injEq] at h
      obtain ⟨-, rfl⟩ := h
      obtain ⟨l5n, l5sh, l5k, l5ct, drawnL, hL, hseenL⟩ :=
        decisionLoop_drawn _ _ _ _ _ _ _ _ _ _ hloop
      obtain ⟨d6n, d6sh, d6k, d6ct, drawnD, hD, hDC⟩ :=
        dealer_play_drawn _ _ _ _ _ hdeal
      have hwhole : (reshuffleCheck st).shoe.shoe
          = s6.shoe ++ (drawnD ++ (drawnL ++ [c4, c3, c2, c1])) := by
        rw [hfour, hL, hD]
        simp [List.append_assoc]
      have hseen2 : (if 2 < dealer1.cards.length then
            seen1 ++ dealer1.cards.drop 2 else seen1)
          = seen1 ++ drawnD.reverse := by
        rw [hDC]
        cases hdr : drawnD.reverse with
        | nil => simp
        | cons x xs =>
          have hlen : (2 : Nat) < ((⟨[c3, c4], 0, [], false⟩ : HandState).cards
              ++ (x :: xs)).length := by
            simp
          rw [if_pos hlen]
          rfl
      have hsum : (((if 2 < dealer1.cards.length then
            seen1 ++ dealer1.cards.drop 2 else seen1).map hi_lo_value)).sum
          = (((drawnD ++ (drawnL ++ [c4, c3, c2, c1])).map hi_lo_value)).sum := by
        rw [hseen2, hseenL]
        simp only [List.map_append, List.sum_append, List.map_reverse,
          List.sum_reverse, List.cons_append, List.nil_append, List.map_cons,
          List.map_nil, List.sum_cons, List.sum_nil]
        omega
      refine ⟨d6n.trans (l5n.trans (g4n.trans (g3n.trans (g2n.trans g1n)))),
        d6sh.trans (l5sh.trans (g4sh.trans (g3sh.trans (g2sh.trans g1sh)))),
        d6k.trans (l5k.trans (g4k.trans (g3k.trans (g2k.trans g1k)))), rfl,
        drawnD ++ (drawnL ++ [c4, c3, c2, c1]), hwhole,
        by simp only [List.length_append, List.length_cons, List.length_nil]; omega,
        ?_, rfl⟩
      rw [← hsum]

/-! ### Natural-blackjack short circuits -/

/-- C4: in any round whose deal gives the dealer a natural blackjack, exactly
one record is emitted, with empty action log, a push exactly when the player
also holds a natural blackjack and a loss otherwise; in any round where only
the player holds a natural blackjack, exactly one win record is emitted with
the single action "stand", and the decision loop never runs (the round
short-circuits before it). -/
theorem C4_natural_blackjack (sn : String) (strat : HandState → String → String)
    (bm : String) (bb : ℚ) (rid : Nat) (st : SimState)
    (c1 c2 c3 c4 : String) (s1 s2 s3 s4 : Shoe)
    (h1 : (reshuffleCheck st).shoe.pop = some (c1, s1))
    (h2 : s1.pop = some (c2, s2)) (h3 : s2.pop = some (c3, s3))
    (h4 : s3.pop = some (c4, s4)) :
    ((HandState.mk [c3, c4] 0 [] false).is_blackjack = true →
       ∃ res st', playRound sn strat bm bb rid st = some ([res], st') ∧
         res.actions = [] ∧ res.player_cards = [c1, c2] ∧
         res.dealer_cards = [c3, c4] ∧
         res.final_result =
           (if (HandState.mk [c1, c2] 0 [] false).is_blackjack then "push" else "lose") ∧
         res.blackjack = (HandState.mk [c1, c2] 0 [] false).is_blackjack) ∧
    ((HandState.mk [c3, c4] 0 [] false).is_blackjack = false →
     (HandState.mk [c1, c2] 0 [] false).is_blackjack = true →
       ∃ res st', playRound sn strat bm bb rid st = some ([res], st') ∧
         res.actions = ["stand"] ∧ res.player_cards = [c1, c2] ∧
         res.dealer_cards = [c3, c4] ∧ res.final_result = "win" ∧
         res.blackjack = true) := by
  constructor
  · intro hbj
    simp only [playRound, playRoundAfterCheck, h1, h2, h3, h4, hbj, if_true]
    exact ⟨_, _, rfl, rfl, rfl, rfl, rfl, rfl⟩
  · intro hbj hpb
    have hpb' : (HandState.mk [c1, c2]
        (if bm = "fixed" then bb
         else _bet_from_true_count (reshuffleCheck st).true_count_prev bb 5)
        [] false).is_blackjack = true := hpb
    simp only [playRound, playRoundAfterCheck, h1, h2, h3, h4, hbj, hpb',
      Bool.false_eq_true, if_false, if_true]
    exact ⟨_, _, rfl, rfl, rfl, rfl, rfl, rfl⟩

section

attribute [local semireducible] Rat.add Rat.mul Rat.sub Rat.inv Rat.ofScientific

/-- Witness for C6 (amended) on concrete hands: an unknown action
("surrender") and an ineligible split both finish the hand as a stand
without drawing; an ineligible double (three-card hand 10,5,5) draws the
next card and logs "hit" (busting at 25 ends the hand). -/
theorem C6_amended_dispatch_witness :
    (decisionLoop (fun _ _ => "surrender") "9" 3 [⟨["2", "3"], 10, [], false⟩]
        ⟨1, idShuffles, 0, ["5"], 52⟩ [] []
      = decisionLoop (fun _ _ => "surrender") "9" 2 []
          ⟨1, idShuffles, 0, ["5"], 52⟩ [] [⟨["2", "3"], 10, ["stand"], false⟩]) ∧
    (decisionLoop stratSplit "9" 3 [⟨["2", "3"], 10, [], false⟩]
        ⟨1, idShuffles, 0, ["5"], 52⟩ [] []
      = decisionLoop stratSplit "9" 2 []
          ⟨1, idShuffles, 0, ["5"], 52⟩ [] [⟨["2", "3"], 10, ["stand"], false⟩]) ∧
    (decisionLoop stratDouble "9" 3 [⟨["10", "5", "5"], 10, [], false⟩]
        ⟨1, idShuffles, 0, ["5"], 52⟩ [] []
      = decisionLoop stratDouble "9" 2 [] ⟨1, idShuffles, 0, [], 52⟩ ["5"]
          [⟨["10", "5", "5", "5"], 10, ["hit"], false⟩]) :=
  ⟨(C6_amended_dispatch (fun _ _ => "surrender") "9" 2 ⟨["2", "3"], 10, [], false⟩ []
      ⟨1, idShuffles, 0, ["5"], 52⟩ [] []).1 (by decide),
    (C6_amended_dispatch stratSplit "9" 2 ⟨["2", "3"], 10, [], false⟩ []
      ⟨1, idShuffles, 0, ["5"], 52⟩ [] []).2.1 rfl (by decide),
    (C6_amended_dispatch stratDouble "9" 2 ⟨["10", "5", "5"], 10, [], false⟩ []
      ⟨1, idShuffles, 0, ["5"], 52⟩ [] []).2.2 rfl (by decide)⟩

/-- Counterexample for C5 as stated: in the `stC5` round the four
initially-dealt cards are 2, 3 (player) and 10, 8 (dealer), whose Hi-Lo
weights sum to 1, so advancing the cross-round running count "using only the
four initially-dealt cards" would carry 0 + 1 = 1 into the next round; the
code instead counts every revealed card — the K drawn by the player's hit as
well — and carries 0. -/
theorem C5_counterexample :
    (playRound "simplest" stratHitTen "fixed" 10 1 stC5).map
        (fun p => (p.2.running_count, p.1.map RoundResult.player_cards,
          p.1.map RoundResult.dealer_cards))
      = some (0, [["2", "3", "K"]], [["10", "8"]]) ∧
    stC5.running_count + (((["2", "3", "10", "8"].map hi_lo_value).sum : ℤ) : ℚ) = 1 ∧
    (0 : ℚ) ≠ 1 := by
  refine ⟨by decide, by decide, by decide⟩

/-- Witness for C5 (amended) on the `stC5` round: the round removes exactly
the suffix `[K, 8, 10, 3, 2]` from the dealing shoe, advances the running
count by the summed Hi-Lo weights of those five cards, and carries the
recomputed true count forward. -/
theorem C5_amended_counting_witness :
    stC5'.shoe.num_decks = (reshuffleCheck stC5).shoe.num_decks ∧
    stC5'.shoe.shuffles = (reshuffleCheck stC5).shoe.shuffles ∧
    stC5'.shoe.k = (reshuffleCheck stC5).shoe.k ∧
    stC5'.total_cards_initial = (reshuffleCheck stC5).total_cards_initial ∧
    ∃ revealed, (reshuffleCheck stC5).shoe.shoe = stC5'.shoe.shoe ++ revealed ∧
      4 ≤ revealed.length ∧
      stC5'.running_count
        = (reshuffleCheck stC5).running_count + ((revealed.map hi_lo_value).sum : ℚ) ∧
      stC5'.true_count_prev = stC5'.running_count / stC5'.shoe.decks_remaining :=
  C5_amended_counting "simplest" stratHitTen "fixed" 10 1 stC5 resultsC5 stC5' rfl

/-- Witness for C4 on two concrete deals: the dealer dealt A,K against a 5,9
player (one losing record, no actions), and the player dealt A,K against a
9,5 dealer (one winning record with the single action "stand"). -/
theorem C4_natural_blackjack_witness :
    (∃ res st', playRound "basic" stratHitTen "fixed" 10 1 stBJdealer
        = some ([res], st') ∧
       res.actions = [] ∧ res.player_cards = ["5", "9"] ∧
       res.dealer_cards = ["A", "K"] ∧
       res.final_result =
         (if (HandState.mk ["5", "9"] 0 [] false).is_blackjack then "push" else "lose") ∧
       res.blackjack = (HandState.mk ["5", "9"] 0 [] false).is_blackjack) ∧
    (∃ res st', playRound "basic" stratHitTen "fixed" 10 1 stBJplayer
        = some ([res], st') ∧
       res.actions = ["stand"] ∧ res.player_cards = ["A", "K"] ∧
       res.dealer_cards = ["9", "5"] ∧ res.final_result = "win" ∧
       res.blackjack = true) :=
  ⟨(C4_natural_blackjack "basic" stratHitTen "fixed" 10 1 stBJdealer "5" "9" "A" "K"
      ⟨1, idShuffles, 1, ["K", "A", "9"], 4⟩ ⟨1, idShuffles, 1, ["K", "A"], 4⟩
      ⟨1, idShuffles, 1, ["K"], 4⟩ ⟨1, idShuffles, 1, [], 4⟩
      rfl rfl rfl rfl).1 (by decide),
    (C4_natural_blackjack "basic" stratHitTen "fixed" 10 1 stBJplayer "A" "K" "9" "5"
      ⟨1, idShuffles, 1, ["5", "9", "K"], 4⟩ ⟨1, idShuffles, 1, ["5", "9"], 4⟩
      ⟨1, idShuffles, 1, ["5"], 4⟩ ⟨1, idShuffles, 1, [], 4⟩
      rfl rfl rfl rfl).2 (by decide) (by decide)⟩

end

/-- Witness for C9 on a freshly built one-deck shoe with the identity
reordering stream. -/
theorem C9_shoe_invariants_witness :
    (Shoe.new 1 idShuffles).reshuffle.cards_remaining = 1 * 52 ∧
    (Shoe.new 1 idShuffles).cards_remaining ≤ 1 * 52 ∧
    (⟨1, idShuffles, 0, [], 0⟩ : Shoe).pop = none :=
  ⟨C9_shoe_invariants.1 (Shoe.new 1 idShuffles) (fun _ l => List.Perm.refl l),
    C9_shoe_invariants.2.2.1 1 idShuffles (Shoe.new 1 idShuffles)
      (fun _ l => List.Perm.refl l) (ShoeReach.refl _),
    C9_shoe_invariants.2.2.2 ⟨1, idShuffles, 0, [], 0⟩ rfl⟩

end Blackjack
